import Mathlib

/-!
Verification of the GoatCounter ingestion/export/replay handlers.

The definitions below are a shallow embedding of `src/handlers/api.go`
(the `/api/v0/count`, `/api/v0/export/...` handlers) and of the replay
importer `importReplay` (second source file).  Parts of the repository
that the handlers call but whose code is not among the source files
(`goatcounter.Hit.Validate`, `goatcounter.Hit.Defaults`, the geo lookup,
`goatcounter.Export.Create`) are taken as oracle parameters or, where a
claim depends on their behaviour, modelled from the specification and
marked as such in their doc comment.
-/

/-! ## The `/api/v0/count` handler (api.count, src/handlers/api.go lines 327-399) -/

/-- One element of the `hits` array of an `/api/v0/count` request body
(struct `apiCountRequestHit`, src/handlers/api.go lines 262-312).
`time.Time` is embedded as an abstract integer timestamp and the
`zdb.Floats` screen size as a list of rationals; both are only carried,
never computed with, in the handler. -/
structure ApiCountRequestHit where
  path : String
  title : String
  event : Bool
  ref : String
  size : List ℚ
  query : String
  bot : Int
  browser : String
  location : String
  ip : String
  createdAt : Int
  session : String
  deriving DecidableEq

/-- A default-valued hit, as Go zero-initialises the struct. -/
def emptyCountHit : ApiCountRequestHit :=
  ⟨"", "", false, "", [], "", 0, "", "", "", 0, ""⟩

/-- The `goatcounter.Hit` record built by `api.count` (the struct literal at
src/handlers/api.go lines 357-369). -/
structure Hit where
  path : String
  title : String
  ref : String
  event : Bool
  size : List ℚ
  query : String
  bot : Int
  createdAt : Int
  browser : String
  location : String
  remoteAddr : String
  userSessionID : String
  deriving DecidableEq

/-- Lines 353-355 and 357-369 of src/handlers/api.go: fill in the location
from the geo lookup when it is blank and an IP is present, then build the
`goatcounter.Hit`.  `geo` is the (external) geo-lookup oracle. -/
def mkCountHit (geo : String → String) (a : ApiCountRequestHit) : Hit :=
  let loc := if a.location = "" ∧ a.ip ≠ "" then geo a.ip else a.location
  { path := a.path, title := a.title, ref := a.ref, event := a.event,
    size := a.size, query := a.query, bot := a.bot, createdAt := a.createdAt,
    browser := a.browser, location := loc, remoteAddr := a.ip,
    userSessionID := "" }

/-- The per-record message recorded at src/handlers/api.go line 377. -/
def noSessionErrMsg : String :=
  "no session and browser and/or ip are blank: not counting unique visit"

/-- The `switch` at src/handlers/api.go lines 371-378: an explicit session
token is copied into the hit; otherwise a non-blank browser together with a
non-blank IP defers session computation to the memstore; otherwise, unless
`no_sessions` was requested, an error message is recorded for this record.
Returns the (possibly) recorded message and the (possibly updated) hit.
Note that the error case neither `continue`s nor `return`s. -/
def sessionSwitch (noSessions : Bool) (a : ApiCountRequestHit) (hit : Hit) :
    Option String × Hit :=
  if a.session ≠ "" then (none, { hit with userSessionID := a.session })
  else if hit.browser ≠ "" ∧ a.ip ≠ "" then (none, hit)
  else if noSessions = false then (some noSessionErrMsg, hit)
  else (none, hit)

/-- One iteration of the loop at src/handlers/api.go lines 352-388 for a
single record `a`: build the hit, run the session switch, apply
`Hit.Defaults` and `Hit.Validate` (oracles `defaults` and `validate`; a
validation failure stores the message and `continue`s past the append).
Result: the message recorded in `errs` for this index, if any, and the hit
passed to `Memstore.Append`, if any. -/
def processHit (geo : String → String) (defaults : Hit → Hit)
    (validate : Hit → Option String) (noSessions : Bool)
    (a : ApiCountRequestHit) : Option String × Option Hit :=
  let p := sessionSwitch noSessions a (mkCountHit geo a)
  let hit := defaults p.2
  match validate hit with
  | some e => (some e, none)
  | none => (p.1, some hit)

/-- The whole loop at src/handlers/api.go lines 351-388, keeping the map of
per-index error messages (in index order) and the list of hits appended to
the Memstore buffer, starting at index `i`. -/
def countLoop (geo : String → String) (defaults : Hit → Hit)
    (validate : Hit → Option String) (noSessions : Bool) :
    Nat → List ApiCountRequestHit → List (Nat × String) × List Hit
  | _, [] => ([], [])
  | i, a :: rest =>
    let r := processHit geo defaults validate noSessions a
    let rec_ := countLoop geo defaults validate noSessions (i + 1) rest
    ((match r.1 with | some m => (i, m) :: rec_.1 | none => rec_.1),
     (match r.2 with | some ht => ht :: rec_.2 | none => rec_.2))

/-- The JSON body `api.count` writes: `{"error": msg}`, `{"errors": {...}}`
or `{"status":"ok"}` (src/handlers/api.go lines 343, 348, 392-394, 398). -/
inductive CountBody
  | fail (msg : String)
  | failures (errs : List (Nat × String))
  | ok
  deriving DecidableEq

/-- What one `/api/v0/count` request produces: the HTTP status, the JSON
body, and the hits appended to the Memstore buffer during the request. -/
structure CountResult where
  status : Nat
  body : CountBody
  appended : List Hit
  deriving DecidableEq

/-- The post-authentication body of `api.count`
(src/handlers/api.go lines 341-398). -/
def countHandler (geo : String → String) (defaults : Hit → Hit)
    (validate : Hit → Option String) (noSessions : Bool)
    (hits : List ApiCountRequestHit) : CountResult :=
  if hits.length = 0 then ⟨400, .fail "no hits", []⟩
  else if hits.length > 100 then
    ⟨400, .fail "maximum amount of pageviews in one batch is 100", []⟩
  else
    let r := countLoop geo defaults validate noSessions 0 hits
    if r.1.length > 0 then ⟨400, .failures r.1, r.2⟩
    else ⟨202, .ok, r.2⟩

/-- Modelled from the spec: `goatcounter.Hit.Validate` is not among the
source files.  Per §3 of the spec ("creation timestamp must not be in the
future relative to server time; path/event name non-empty") and the message
shape in the handler test file, it rejects an empty path and a future
`created_at`, and accepts everything else. -/
def specValidate (now : Int) (h : Hit) : Option String :=
  if h.path = "" then some "path: must be set.\n"
  else if now < h.createdAt then some "created_at: in the future.\n"
  else none

/-! Characterisation of `countLoop`: the recorded errors are exactly the
enumerated records whose processing produced a message, and the appended
hits are exactly those whose processing produced a hit. -/

theorem countLoop_errs (geo : String → String) (defaults : Hit → Hit)
    (validate : Hit → Option String) (noSessions : Bool) :
    ∀ (l : List ApiCountRequestHit) (i : Nat),
      (countLoop geo defaults validate noSessions i l).1 =
        (l.enumFrom i).filterMap
          (fun p => ((processHit geo defaults validate noSessions p.2).1).map
            (fun m => (p.1, m)))
  | [], _ => rfl
  | a :: rest, i => by
    have ih := countLoop_errs geo defaults validate noSessions rest (i + 1)
    simp only [countLoop, List.enumFrom, List.filterMap_cons]
    cases h : (processHit geo defaults validate noSessions a).1 <;>
      simp [h, ih]

theorem countLoop_apps (geo : String → String) (defaults : Hit → Hit)
    (validate : Hit → Option String) (noSessions : Bool) :
    ∀ (l : List ApiCountRequestHit) (i : Nat),
      (countLoop geo defaults validate noSessions i l).2 =
        l.filterMap (fun a => (processHit geo defaults validate noSessions a).2)
  | [], _ => rfl
  | a :: rest, i => by
    have ih := countLoop_apps geo defaults validate noSessions rest (i + 1)
    simp only [countLoop, List.filterMap_cons]
    cases h : (processHit geo defaults validate noSessions a).2 <;>
      simp [h, ih]

/-- Map-then-project equals filter-then-project: the indices that survive
the error `filterMap` are exactly the indices passing the `isSome` filter. -/
theorem filterMap_fst_eq_filter_fst {α : Type} (f : Nat × α → Option String) :
    ∀ L : List (Nat × α),
      (L.filterMap (fun p => ((f p).map (fun m => (p.1, m))))).map Prod.fst =
        (L.filter (fun p => ((f p).isSome))).map Prod.fst
  | [] => rfl
  | p :: L => by
    cases h : f p <;>
      simp [List.filterMap_cons, List.filter_cons, h,
        filterMap_fst_eq_filter_fst f L]

/-- The per-index error map `api.count` builds, in filterMap form (equal to
the first component of `countLoop` by `countLoop_errs`). -/
def countErrs (geo : String → String) (defaults : Hit → Hit)
    (validate : Hit → Option String) (noSessions : Bool)
    (hits : List ApiCountRequestHit) : List (Nat × String) :=
  (hits.enum).filterMap
    (fun p => ((processHit geo defaults validate noSessions p.2).1).map
      (fun m => (p.1, m)))

theorem countHandler_eq (geo : String → String) (defaults : Hit → Hit)
    (validate : Hit → Option String) (noSessions : Bool)
    (hits : List ApiCountRequestHit) (h1 : 1 ≤ hits.length)
    (h2 : hits.length ≤ 100) :
    countHandler geo defaults validate noSessions hits =
      let errs := countErrs geo defaults validate noSessions hits
      let apps :=
        hits.filterMap (fun a => (processHit geo defaults validate noSessions a).2)
      if errs.length > 0 then ⟨400, .failures errs, apps⟩ else ⟨202, .ok, apps⟩ := by
  unfold countHandler
  rw [if_neg (by omega), if_neg (by omega)]
  simp only [countLoop_errs, countLoop_apps, countErrs, List.enum]

/-- A record that recorded no error message is appended: if the first
component of `processHit` is `none`, validation passed, so the second
component holds the hit. -/
theorem processHit_none_appended (geo : String → String) (defaults : Hit → Hit)
    (validate : Hit → Option String) (noSessions : Bool)
    (a : ApiCountRequestHit)
    (h : (processHit geo defaults validate noSessions a).1 = none) :
    ∃ ht, (processHit geo defaults validate noSessions a).2 = some ht := by
  unfold processHit at *
  cases hv : validate (defaults (sessionSwitch noSessions a (mkCountHit geo a)).2) <;>
    simp [hv] at h ⊢

/-- The statement of claim C2, as a predicate over the handler's oracles and
one request: the response's error map is keyed exactly by the indices of the
records whose processing recorded a message; every record whose index is not
a key was appended to the Memstore buffer; at least one failure gives a 400
response carrying the error map, and no failure gives 202 `{"status":"ok"}`. -/
def C2Statement (geo : String → String) (defaults : Hit → Hit)
    (validate : Hit → Option String) (noSessions : Bool)
    (hits : List ApiCountRequestHit) : Prop :=
  (countErrs geo defaults validate noSessions hits).map Prod.fst =
      ((hits.enum).filter
        (fun p => ((processHit geo defaults validate noSessions p.2).1).isSome)).map
        Prod.fst
  ∧ (∀ i a, hits.get? i = some a →
      (∀ m, (i, m) ∉ countErrs geo defaults validate noSessions hits) →
      ∃ ht, (processHit geo defaults validate noSessions a).2 = some ht ∧
        ht ∈ (countHandler geo defaults validate noSessions hits).appended)
  ∧ (countErrs geo defaults validate noSessions hits ≠ [] →
      (countHandler geo defaults validate noSessions hits).status = 400 ∧
      (countHandler geo defaults validate noSessions hits).body =
        .failures (countErrs geo defaults validate noSessions hits))
  ∧ (countErrs geo defaults validate noSessions hits = [] →
      (countHandler geo defaults validate noSessions hits).status = 202 ∧
      (countHandler geo defaults validate noSessions hits).body = .ok)

/-- C2: for every `/count` request whose hit array has between 1 and 100
elements, the handler validates each hit independently: the errors object is
keyed exactly by the indices of the failing hits, every hit whose index is
not listed is appended to the Memstore buffer, and the status is 400 when at
least one hit failed, otherwise 202 with `{"status":"ok"}`. -/
theorem C2_per_record_validation (geo : String → String) (defaults : Hit → Hit)
    (validate : Hit → Option String) (noSessions : Bool)
    (hits : List ApiCountRequestHit) (h1 : 1 ≤ hits.length)
    (h2 : hits.length ≤ 100) :
    C2Statement geo defaults validate noSessions hits := by
  have heq := countHandler_eq geo defaults validate noSessions hits h1 h2
  refine ⟨filterMap_fst_eq_filter_fst _ _, ?_, ?_, ?_⟩
  · intro i a hget hnot
    have herr : (processHit geo defaults validate noSessions a).1 = none := by
      cases hp : (processHit geo defaults validate noSessions a).1 with
      | none => rfl
      | some m =>
        exact absurd (List.mem_filterMap.2 ⟨(i, a),
          List.mem_enum_iff_get?.2 hget, by simp [hp]⟩) (hnot m)
    obtain ⟨ht, hht⟩ := processHit_none_appended geo defaults validate noSessions a herr
    refine ⟨ht, hht, ?_⟩
    rw [heq]
    have hmem : ht ∈ hits.filterMap
        (fun a => (processHit geo defaults validate noSessions a).2) :=
      List.mem_filterMap.2 ⟨a, List.get?_mem hget, hht⟩
    by_cases hc : (countErrs geo defaults validate noSessions hits).length > 0 <;>
      simp [hc, hmem]
  · intro hne
    rw [heq]
    have : (countErrs geo defaults validate noSessions hits).length > 0 :=
      List.length_pos.2 hne
    simp [this]
  · intro he
    rw [heq]
    simp [he]

/-- A concrete valid record used by witnesses. -/
def demoHit : ApiCountRequestHit := { emptyCountHit with path := "/a", session := "s1" }

/-- Witness for C2 at a concrete one-element request. -/
theorem C2_per_record_validation_witness :
    C2Statement (fun _ => "") id (specValidate 0) true [demoHit] :=
  C2_per_record_validation (fun _ => "") id (specValidate 0) true [demoHit]
    (by simp) (by simp)

/-- C3: a `/count` request with more than 100 hits is rejected wholesale:
400,  body `{"error":"maximum amount of pageviews in one batch is 100"}`,
and nothing is appended to the Memstore buffer. -/
theorem C3_batch_over_100_rejected (geo : String → String) (defaults : Hit → Hit)
    (validate : Hit → Option String) (noSessions : Bool)
    (hits : List ApiCountRequestHit) (h : hits.length > 100) :
    countHandler geo defaults validate noSessions hits =
      ⟨400, .fail "maximum amount of pageviews in one batch is 100", []⟩ := by
  unfold countHandler
  rw [if_neg (by omega), if_pos h]

/-- Witness for C3: a batch of 101 records. -/
theorem C3_batch_over_100_rejected_witness :
    countHandler (fun _ => "") id (specValidate 0) true
        (List.replicate 101 emptyCountHit) =
      ⟨400, .fail "maximum amount of pageviews in one batch is 100", []⟩ :=
  C3_batch_over_100_rejected (fun _ => "") id (specValidate 0) true
    (List.replicate 101 emptyCountHit) (by simp)

/-- Processing a record with no session token, and blank browser or blank
IP, with `no_sessions` false: the "no session" message is recorded, and —
because the switch neither continues nor returns — the record still reaches
`Memstore.Append` whenever `Hit.Validate` passes. -/
theorem processHit_noSession (geo : String → String) (defaults : Hit → Hit)
    (validate : Hit → Option String) (a : ApiCountRequestHit)
    (hsess : a.session = "") (hblank : a.browser = "" ∨ a.ip = "")
    (hval : validate (defaults (mkCountHit geo a)) = none) :
    processHit geo defaults validate false a =
      (some noSessionErrMsg, some (defaults (mkCountHit geo a))) := by
  have hb : (mkCountHit geo a).browser = a.browser := by
    simp [mkCountHit]
  have hsw : sessionSwitch false a (mkCountHit geo a) =
      (some noSessionErrMsg, mkCountHit geo a) := by
    unfold sessionSwitch
    rw [if_neg (by simp [hsess]), if_neg, if_pos rfl]
    rcases hblank with h | h
    · intro hc; exact hc.1 (hb.trans h)
    · intro hc; exact hc.2 h
  simp [processHit, hsw, hval]

/-- The statement of the amended claim C1: under `no_sessions = false`, a
record whose session token is empty and whose browser or IP is blank gets
the "no session" validation message recorded at its index and makes the
response a 400 carrying that error map — but the record is not rejected: it
is still appended to the Memstore buffer (it is merely not counted as a
unique visit), provided it passes `Hit.Validate`. -/
def C1Statement (geo : String → String) (defaults : Hit → Hit)
    (validate : Hit → Option String) (hits : List ApiCountRequestHit)
    (i : Nat) (a : ApiCountRequestHit) : Prop :=
  (i, noSessionErrMsg) ∈ countErrs geo defaults validate false hits
  ∧ (countHandler geo defaults validate false hits).status = 400
  ∧ (countHandler geo defaults validate false hits).body =
      .failures (countErrs geo defaults validate false hits)
  ∧ defaults (mkCountHit geo a) ∈
      (countHandler geo defaults validate false hits).appended

/-- C1 (amended): the "no session and browser/ip are blank" condition is a
per-index error and yields a 400 response, but the offending record is still
appended to the buffer when it passes validation — it is not rejected. -/
theorem C1_no_session_still_counted (geo : String → String)
    (defaults : Hit → Hit) (validate : Hit → Option String)
    (hits : List ApiCountRequestHit) (i : Nat) (a : ApiCountRequestHit)
    (h100 : hits.length ≤ 100) (hget : hits.get? i = some a)
    (hsess : a.session = "") (hblank : a.browser = "" ∨ a.ip = "")
    (hval : validate (defaults (mkCountHit geo a)) = none) :
    C1Statement geo defaults validate hits i a := by
  have hproc := processHit_noSession geo defaults validate a hsess hblank hval
  have hmem : (i, noSessionErrMsg) ∈ countErrs geo defaults validate false hits :=
    List.mem_filterMap.2 ⟨(i, a), List.mem_enum_iff_get?.2 hget, by simp [hproc]⟩
  have h1 : 1 ≤ hits.length := by
    rcases List.get?_eq_some.1 hget with ⟨hlt, -⟩
    omega
  have heq := countHandler_eq geo defaults validate false hits h1 h100
  have hpos : (countErrs geo defaults validate false hits).length > 0 :=
    List.length_pos.2 (List.ne_nil_of_mem hmem)
  have happ : defaults (mkCountHit geo a) ∈
      hits.filterMap (fun a => (processHit geo defaults validate false a).2) :=
    List.mem_filterMap.2 ⟨a, List.get?_mem hget, by simp [hproc]⟩
  refine ⟨hmem, ?_, ?_, ?_⟩ <;> rw [heq] <;> simp [hpos, happ]

/-- A record with no session token, blank browser and blank IP. -/
def sessionlessHit : ApiCountRequestHit := { emptyCountHit with path := "/a" }

/-- Counterexample to C1 as stated: with `no_sessions` false, a record with
an empty session token, blank browser and blank IP gets the per-index error
recorded — yet it is NOT rejected: the very same request appends it to the
Memstore buffer. -/
theorem C1_counterexample :
    (countHandler (fun _ => "") id (specValidate 0) false [sessionlessHit]).body =
        .failures [(0, noSessionErrMsg)]
    ∧ (countHandler (fun _ => "") id (specValidate 0) false [sessionlessHit]).appended =
        [mkCountHit (fun _ => "") sessionlessHit] := by
  exact ⟨rfl, rfl⟩

/-- Witness for the amended C1 at a concrete one-record request. -/
theorem C1_no_session_still_counted_witness :
    C1Statement (fun _ => "") id (specValidate 0) [sessionlessHit] 0 sessionlessHit :=
  C1_no_session_still_counted (fun _ => "") id (specValidate 0) [sessionlessHit]
    0 sessionlessHit (by simp) rfl rfl (Or.inl rfl) rfl

/-! ## The export download endpoint (api.exportDownload, src/handlers/api.go lines 208-249) -/

/-- The `goatcounter.Export` entity as the API serialises it (the swagger
document bundled with the source); only the fields the download handler
reads (`path`) or that carry the job's lifecycle state are modelled. -/
structure Export where
  id : Int
  siteId : Int
  path : String
  finishedAt : Option Int
  error : Option String
  deriving DecidableEq

/-- Whether an export is in the spec's terminal `done` state: finished, with
no recorded error (spec §3, ExportJob lifecycle). -/
def Export.isDone (e : Export) : Bool :=
  e.finishedAt.isSome && e.error.isNone

/-- Split a character list on `'/'` (a computable stand-in for the path
splitting `path/filepath.Base` performs). -/
def splitSlash : List Char → List (List Char)
  | [] => [[]]
  | c :: cs =>
    match splitSlash cs with
    | [] => [[]]
    | y :: ys => if c = '/' then [] :: y :: ys else (c :: y) :: ys

/-- Go's `path/filepath.Base` for slash-separated paths: the last non-empty
component; "." for the empty path, "/" when the path is only slashes. -/
def filepathBase (p : String) : String :=
  if p = "" then "."
  else
    match (((splitSlash p.data).map String.mk).filter (fun s => s ≠ "")).getLast? with
    | some s => s
    | none => "/"

/-- The distinct responses `api.exportDownload` can produce once
authentication and the id-parameter validation have passed. -/
inductive DownloadResult
  | lookupFailed
  | flashRedirect (msg target : String)
  | serve (contentType filename contents : String)
  deriving DecidableEq

/-- The body of `api.exportDownload` (src/handlers/api.go lines 222-248):
look the export up by id (`lookup` is `Export.ByID`'s result; `none` is the
unknown-id error the handler returns as-is), try to open its stored path in
the file system `fs`, and either serve the bytes as `application/gzip` with
a content-disposition filename `filepath.Base(path)`, or — when the file
does not exist — flash "It looks like there is no export yet." and redirect
to the settings page.  Note the export's state fields are never consulted. -/
def exportDownload (lookup : Option Export) (fs : String → Option String) :
    DownloadResult :=
  match lookup with
  | none => .lookupFailed
  | some e =>
    match fs e.path with
    | none => .flashRedirect "It looks like there is no export yet."
        "/settings#tab-export"
    | some contents => .serve "application/gzip" (filepathBase e.path) contents

/-- A pending export (not `done`) whose file nevertheless exists. -/
def pendingExport : Export := ⟨1, 1, "/tmp/gc/export.csv.gz", none, none⟩

/-- Counterexample to C5 as stated: downloading does NOT require the export
to be in `done` state — a pending export whose file exists is served. -/
theorem C5_counterexample :
    pendingExport.isDone = false ∧
    exportDownload (some pendingExport)
        (fun p => if p = "/tmp/gc/export.csv.gz" then some "GZDATA" else none) =
      .serve "application/gzip" "export.csv.gz" "GZDATA" :=
  ⟨rfl, rfl⟩

/-- The statement of the amended claim C5: for a known export id, download
requires only that the stored file exists (the `done` state is not
checked); a successful download serves the bytes with Content-Type
`application/gzip` and a content-disposition filename `Base(path)`; a
missing file produces the flash-message redirect, which is a different
response from the unknown-export-id one. -/
def C5Statement (e : Export) (fs : String → Option String) : Prop :=
  (∀ c, fs e.path = some c →
    exportDownload (some e) fs =
      .serve "application/gzip" (filepathBase e.path) c)
  ∧ (fs e.path = none →
      exportDownload (some e) fs =
        .flashRedirect "It looks like there is no export yet."
          "/settings#tab-export")
  ∧ exportDownload none fs = .lookupFailed
  ∧ ∀ m t, DownloadResult.flashRedirect m t ≠ .lookupFailed

/-- C5 (amended): download serves `application/gzip` with a filename derived
from the stored path whenever the file exists — regardless of the export's
state — and a missing file yields the flash-redirect response, distinct from
the unknown-id response. -/
theorem C5_download_behaviour (e : Export) (fs : String → Option String) :
    C5Statement e fs := by
  refine ⟨?_, ?_, rfl, ?_⟩
  · intro c hc
    simp [exportDownload, hc]
  · intro hc
    simp [exportDownload, hc]
  · intro m t h
    cases h

/-! ## Export creation and the single-flight background writer
(api.export, src/handlers/api.go lines 150-175) -/

/-- Lifecycle states of an ExportJob (spec §3: created `pending`, moves to
`running`, ends `done` or `failed`). -/
inductive ExportStatus
  | pending
  | running
  | done
  | failed
  deriving DecidableEq

/-- Whether a job status is non-terminal. -/
def ExportStatus.nonTerminal : ExportStatus → Bool
  | .pending => true
  | .running => true
  | .done => false
  | .failed => false

/-- The export subsystem's state: the persisted jobs `(id, site, status)`
and one entry per live background writer (`bgrun.Run(func() {
export.Run(ctx, fp, false) })`, src/handlers/api.go line 171), recorded by
site. -/
structure ExportSystem where
  jobs : List (Nat × Nat × ExportStatus)
  writers : List Nat

/-- How many non-terminal jobs a site has. -/
def nonTerminalFor (st : ExportSystem) (site : Nat) : Nat :=
  st.jobs.countP (fun j => decide (j.2.1 = site) && j.2.2.nonTerminal)

/-- How many live background writers a site has. -/
def writersFor (st : ExportSystem) (site : Nat) : Nat :=
  st.writers.count site

/-- One step of the export subsystem.  `requestOk`/`requestConflict` are the
two outcomes of the handler `api.export`: `Export.Create` — modelled from
the spec, §4.4: create "must check for an existing non-terminal job for the
site and either return its handle (idempotent join) or reject with a
conflict"; the model takes the rejecting branch — followed, only on
success, by inserting the pending row and spawning the background writer
(the handler returns the `Create` error before reaching `bgrun.Run`).
`start` and `finish` are the background writer's own transitions. -/
inductive ExportStep : ExportSystem → ExportSystem → Prop
  | requestOk (st : ExportSystem) (site fresh : Nat)
      (hnone : nonTerminalFor st site = 0) :
      ExportStep st ⟨(fresh, site, .pending) :: st.jobs, site :: st.writers⟩
  | requestConflict (st : ExportSystem) (site : Nat)
      (hsome : nonTerminalFor st site ≠ 0) :
      ExportStep st st
  | start (pre post : List (Nat × Nat × ExportStatus)) (ws : List Nat)
      (id site : Nat) :
      ExportStep ⟨pre ++ (id, site, .pending) :: post, ws⟩
        ⟨pre ++ (id, site, .running) :: post, ws⟩
  | finish (pre post : List (Nat × Nat × ExportStatus)) (ws : List Nat)
      (id site : Nat) (t : ExportStatus) (ht : t.nonTerminal = false) :
      ExportStep ⟨pre ++ (id, site, .running) :: post, ws⟩
        ⟨pre ++ (id, site, t) :: post, ws.erase site⟩

/-- The states the export subsystem can reach from an empty system. -/
inductive ExportReachable : ExportSystem → Prop
  | init : ExportReachable ⟨[], []⟩
  | step {st st' : ExportSystem} : ExportReachable st → ExportStep st st' →
      ExportReachable st'

/-- The inductive invariant: a site never has more live writers than
non-terminal jobs, and never more than one non-terminal job. -/
def ExportInv (st : ExportSystem) : Prop :=
  ∀ site, writersFor st site ≤ nonTerminalFor st site ∧
    nonTerminalFor st site ≤ 1

theorem exportStep_inv {st st' : ExportSystem} (h : ExportStep st st')
    (hinv : ExportInv st) : ExportInv st' := by
  cases h with
  | requestOk st site fresh hnone =>
    intro s
    obtain ⟨hw, hn⟩ := hinv s
    have h1 : writersFor ⟨(fresh, site, .pending) :: st.jobs, site :: st.writers⟩ s =
        writersFor st s + (if site = s then 1 else 0) := by
      simp [writersFor, List.count_cons]
    have h2 : nonTerminalFor ⟨(fresh, site, .pending) :: st.jobs, site :: st.writers⟩ s =
        nonTerminalFor st s + (if site = s then 1 else 0) := by
      simp [nonTerminalFor, List.countP_cons, ExportStatus.nonTerminal]
    rw [h1, h2]
    by_cases hs : site = s
    · have h0 : nonTerminalFor st s = 0 := hs ▸ hnone
      constructor <;> simp [hs] <;> omega
    · simp [hs]
      omega
  | requestConflict st site hsome => exact hinv
  | start pre post ws id site =>
    intro s
    obtain ⟨hw, hn⟩ := hinv s
    have h2 : nonTerminalFor ⟨pre ++ (id, site, .running) :: post, ws⟩ s =
        nonTerminalFor ⟨pre ++ (id, site, .pending) :: post, ws⟩ s := by
      simp [nonTerminalFor, List.countP_append, List.countP_cons,
        ExportStatus.nonTerminal]
    have h1 : writersFor ⟨pre ++ (id, site, .running) :: post, ws⟩ s =
        writersFor ⟨pre ++ (id, site, .pending) :: post, ws⟩ s := rfl
    rw [h1, h2]
    exact ⟨hw, hn⟩
  | finish pre post ws id site t ht =>
    intro s
    obtain ⟨hw, hn⟩ := hinv s
    have h1 : writersFor ⟨pre ++ (id, site, t) :: post, ws.erase site⟩ s =
        writersFor ⟨pre ++ (id, site, .running) :: post, ws⟩ s -
          (if site = s then 1 else 0) := by
      by_cases hs : site = s
      · simp only [writersFor, if_pos hs]
        exact hs ▸ List.count_erase_self site ws
      · simp only [writersFor, if_neg hs]
        exact List.count_erase_of_ne (fun hc => hs hc.symm) ws
    cases t with
    | pending => exact absurd ht (by simp [ExportStatus.nonTerminal])
    | running => exact absurd ht (by simp [ExportStatus.nonTerminal])
    | done =>
      by_cases hs : site = s
      · have h2 : nonTerminalFor ⟨pre ++ (id, site, .done) :: post, ws.erase site⟩ s + 1 =
            nonTerminalFor ⟨pre ++ (id, site, .running) :: post, ws⟩ s := by
          simp only [nonTerminalFor, List.countP_append, List.countP_cons,
            ExportStatus.nonTerminal]
          simp [hs] <;> omega
        rw [h1, if_pos hs]
        constructor <;> omega
      · have h2 : nonTerminalFor ⟨pre ++ (id, site, .done) :: post, ws.erase site⟩ s =
            nonTerminalFor ⟨pre ++ (id, site, .running) :: post, ws⟩ s := by
          simp only [nonTerminalFor, List.countP_append, List.countP_cons,
            ExportStatus.nonTerminal]
          simp [hs] <;> omega
        rw [h1, if_neg hs]
        constructor <;> omega
    | failed =>
      by_cases hs : site = s
      · have h2 : nonTerminalFor ⟨pre ++ (id, site, .failed) :: post, ws.erase site⟩ s + 1 =
            nonTerminalFor ⟨pre ++ (id, site, .running) :: post, ws⟩ s := by
          simp only [nonTerminalFor, List.countP_append, List.countP_cons,
            ExportStatus.nonTerminal]
          simp [hs] <;> omega
        rw [h1, if_pos hs]
        constructor <;> omega
      · have h2 : nonTerminalFor ⟨pre ++ (id, site, .failed) :: post, ws.erase site⟩ s =
            nonTerminalFor ⟨pre ++ (id, site, .running) :: post, ws⟩ s := by
          simp only [nonTerminalFor, List.countP_append, List.countP_cons,
            ExportStatus.nonTerminal]
          simp [hs] <;> omega
        rw [h1, if_neg hs]
        constructor <;> omega

/-- C4: in every reachable state of the export subsystem each site has at
most one non-terminal (pending or running) export job and at most one live
background writer; a request that arrives while a non-terminal job exists
takes the conflict branch, which leaves the state unchanged and spawns
nothing. -/
theorem C4_single_flight_export (st : ExportSystem) (h : ExportReachable st)
    (site : Nat) :
    nonTerminalFor st site ≤ 1 ∧ writersFor st site ≤ 1 := by
  have hinv : ExportInv st := by
    induction h with
    | init => intro s; constructor <;> simp [nonTerminalFor, writersFor]
    | step _ hstep ih => exact exportStep_inv hstep ih
  obtain ⟨hw, hn⟩ := hinv site
  exact ⟨hn, hw.trans hn⟩

/-- Witness for C4: the state reached by a successful create request
followed by a conflicting one for the same site. -/
theorem C4_single_flight_export_witness :
    nonTerminalFor ⟨[(7, 1, .pending)], [1]⟩ 1 ≤ 1 ∧
      writersFor ⟨[(7, 1, .pending)], [1]⟩ 1 ≤ 1 :=
  C4_single_flight_export ⟨[(7, 1, .pending)], [1]⟩
    (ExportReachable.step
      (ExportReachable.step ExportReachable.init
        (ExportStep.requestOk ⟨[], []⟩ 1 7 rfl))
      (ExportStep.requestConflict ⟨[(7, 1, .pending)], [1]⟩ 1 (by decide)))
    1

/-! ## The replay importer's CSV version check
(importReplay, importer source lines 607-617) -/

/-- The outcome of evaluating a Go expression that may panic. -/
inductive GoResult (α : Type)
  | ok (val : α)
  | panics (msg : String)
  deriving DecidableEq

/-- Go's `strings.HasPrefix`, on the character lists of the strings. -/
def goStartsWith (s pre : String) : Bool :=
  pre.data.isPrefixOf s.data

/-- The header version check of `importReplay` (importer source lines
613-617): when the header is empty or its first field does not start with
`goatcounter.ExportVersion`, build the error "wrong version of CSV
database: ... (expected: ...)" whose first argument is `header[0][:1]`, and
return it.  Evaluating `header[0][:1]` panics when the header row has no
fields (index out of range) or when its first field is the empty string
(slice bounds out of range: `""[:1]`).  `.ok (some e)` is an error return,
`.ok none` means the check passed.  `exportVersion` stands for the constant
`goatcounter.ExportVersion`, which is not among the source files; per spec
§6 the first header field "encodes a version token". -/
def versionCheck (exportVersion : String) (header : List String) :
    GoResult (Option String) :=
  if header.length = 0 || !(goStartsWith (header.headD "") exportVersion) then
    match header with
    | [] => .panics "runtime error: index out of range"
    | h :: _ =>
      if h.length < 1 then .panics "runtime error: slice bounds out of range"
      else .ok (some ("wrong version of CSV database: " ++
        String.mk (h.data.take 1) ++ " (expected: " ++ exportVersion ++ ")"))
  else .ok none

/-- C10: the version-check error branch is not total: on a CSV whose first
header field is the empty string, building the "wrong version of CSV
database" message evaluates `header[0][:1]` and panics with an out-of-range
slice instead of returning the error (for any non-empty version token). -/
theorem C10_version_check_panics (exportVersion : String)
    (hv : exportVersion ≠ "") :
    versionCheck exportVersion [""] =
      .panics "runtime error: slice bounds out of range" := by
  have hd : ∃ c cs, exportVersion.data = c :: cs := by
    cases hdata : exportVersion.data with
    | nil => exact absurd (by cases exportVersion; simp_all) hv
    | cons c cs => exact ⟨c, cs, rfl⟩
  obtain ⟨c, cs, hdata⟩ := hd
  simp [versionCheck, goStartsWith, hdata, List.isPrefixOf]

/-- Witness for C10 with the version token "1". -/
theorem C10_version_check_panics_witness :
    versionCheck "1" [""] = .panics "runtime error: slice bounds out of range" :=
  C10_version_check_panics "1" (by decide)

/-- Evaluation of the version check at C6's failing input: a header row
`["", "2"]` (CSV first line `,2`) whose first field carries no version
token makes the check panic while building the error message, instead of
returning the "wrong version of CSV database" error the claim describes. -/
theorem C6_version_check_panic_not_error :
    versionCheck "1" ["", "2"] =
      .panics "runtime error: slice bounds out of range" := by
  simp [versionCheck, goStartsWith, List.isPrefixOf]

/-! ## The replay loop's pacing and termination
(importReplay, importer source lines 675-705) -/

/-- Nanoseconds the harness sleeps between ticks (importer source lines
675-678): one second, overridden to `time.Duration(1_000_000_000 / speed)`
only when `speed > 1`.  The Go float64 `speed` is modelled as a rational;
the conversion to `time.Duration` truncates to whole nanoseconds. -/
def sleepNanos (speed : ℚ) : ℤ :=
  if speed > 1 then ⌊(1000000000 : ℚ) / speed⌋ else 1000000000

/-- The virtual clock at the k-th break check of the replay loop, in
nanoseconds: the loop adds one second to `now` and only then compares
`now.After(time.Now())`, so at the k-th check the virtual clock is
`start + k` seconds. -/
def virtualAt (start : ℤ) (k : ℕ) : ℤ := start + (k : ℤ) * 1000000000

/-- The wall clock at the k-th break check in the idealised timing model:
every sleep takes exactly `sleepNanos speed`, request processing takes no
time, and `k - 1` sleeps have happened before the k-th check.  (Real time
can only be ahead of this model, since `time.Sleep` sleeps at least its
argument.) -/
def wallAt (t0 : ℤ) (speed : ℚ) (k : ℕ) : ℤ :=
  t0 + ((k : ℤ) - 1) * sleepNanos speed

/-- Whether the break condition `now.After(time.Now())` holds at the k-th
check of the replay loop. -/
def breaksAt (start t0 : ℤ) (speed : ℚ) (k : ℕ) : Bool :=
  decide (wallAt t0 speed k < virtualAt start k)

/-- C8: at speed 1 the replay loop never terminates once the virtual clock
starts behind the wall clock (here: first dataset timestamp 10 seconds in
the past).  Both clocks advance exactly one second per iteration, so the
strict comparison `now.After(time.Now())` never becomes true — no break
check ever fires, contradicting the claim that the loop always terminates. -/
theorem C8_replay_never_terminates (k : ℕ) :
    breaksAt 0 10000000000 1 k = false := by
  have hs : sleepNanos 1 = 1000000000 := by norm_num [sleepNanos]
  have : ¬ (wallAt 10000000000 1 k < virtualAt 0 k) := by
    simp only [wallAt, virtualAt, hs]
    push_cast
    omega
  simpa [breaksAt] using this

/-- Counterexample to C9 as stated: at speed one-half the claimed sleep of
"1 second divided by the speed multiplier" would be 2 seconds, but the
harness sleeps exactly 1 second — speeds below 1 do not slow the replay. -/
theorem C9_counterexample :
    sleepNanos (1 / 2) = 1000000000 ∧
      ⌊(1000000000 : ℚ) / (1 / 2)⌋ = 2000000000 := by
  constructor
  · norm_num [sleepNanos]
  · norm_num

/-- C9 (amended): between consecutive break checks the wall clock of the
idealised trace advances by exactly the sleep amount, and that amount is
`⌊1 second / speed⌋` nanoseconds only when the speed multiplier exceeds 1;
for speeds at most 1 the harness sleeps exactly 1 second. -/
theorem C9_sleep_behaviour (t0 : ℤ) (speed : ℚ) (k : ℕ) :
    wallAt t0 speed (k + 1) - wallAt t0 speed k = sleepNanos speed
    ∧ (1 < speed → sleepNanos speed = ⌊(1000000000 : ℚ) / speed⌋)
    ∧ (speed ≤ 1 → sleepNanos speed = 1000000000) := by
  refine ⟨?_, ?_, ?_⟩
  · simp only [wallAt, Nat.cast_add, Nat.cast_one]
    ring
  · intro h
    simp [sleepNanos, h]
  · intro h
    simp [sleepNanos, not_lt.2 h]

/-! ## The replay importer's synthetic IP assignment
(importReplay, importer source lines 619-620 and 658-664) -/

/-- Go's `%` (truncated remainder) on integers. -/
def goRem (a b : ℤ) : ℤ := Int.tmod a b

/-- Go's arithmetic right shift on a signed integer: floor division by a
power of two. -/
def goShr (n : ℤ) (k : ℕ) : ℤ := Int.fdiv n (2 ^ k)

/-- Wrap an integer into int32 range, as Go's int32 arithmetic does
(signed overflow wraps). -/
def int32wrap (n : ℤ) : ℤ := (n + 2 ^ 31) % 2 ^ 32 - 2 ^ 31

/-- `fmt.Sprintf("%d.%d.%d.%d", nextIP>>24, nextIP>>16%256, nextIP>>8%256,
nextIP%256)` (importer source line 660); in Go, `>>` and `%` share one
precedence level and associate left, so each component is `(nextIP>>k)%256`. -/
def ipFormat (n : ℤ) : String :=
  toString (goShr n 24) ++ "." ++ (toString (goRem (goShr n 16) 256) ++ "." ++
    (toString (goRem (goShr n 8) 256) ++ "." ++ toString (goRem n 256)))

/-- `ipFormat` on a non-negative counter below 2^31, written with natural
number arithmetic. -/
def natIpFormat (m : ℕ) : String :=
  Nat.repr (m / 2 ^ 24) ++ "." ++ (Nat.repr (m / 2 ^ 16 % 256) ++ "." ++
    (Nat.repr (m / 2 ^ 8 % 256) ++ "." ++ Nat.repr (m % 256)))

theorem goShr_natCast (m k : ℕ) : goShr (m : ℤ) k = ((m / 2 ^ k : ℕ) : ℤ) := by
  unfold goShr
  rw [Int.fdiv_eq_ediv _ (by positivity)]
  push_cast
  rfl

theorem goRem_natCast (m b : ℕ) : goRem (m : ℤ) (b : ℤ) = ((m % b : ℕ) : ℤ) := by
  unfold goRem
  rw [Int.tmod_eq_emod (by positivity) (by positivity)]
  push_cast
  rfl

theorem toString_intCast (m : ℕ) : toString ((m : ℕ) : ℤ) = Nat.repr m := rfl

theorem ipFormat_natCast (m : ℕ) : ipFormat (m : ℤ) = natIpFormat m := by
  unfold ipFormat natIpFormat
  rw [goShr_natCast, goShr_natCast, goShr_natCast]
  have h256 : (256 : ℤ) = ((256 : ℕ) : ℤ) := rfl
  rw [h256, goRem_natCast, goRem_natCast, goRem_natCast]
  rw [toString_intCast, toString_intCast, toString_intCast, toString_intCast]

/-- Decimal value of a digit string (inverse of `Nat.repr` on small
numbers). -/
def digitsVal (cs : List Char) : ℕ :=
  cs.foldl (fun a c => a * 10 + (c.toNat - 48)) 0

set_option maxRecDepth 10000 in
theorem repr_no_dot : ∀ m : ℕ, m < 256 → '.' ∉ (Nat.repr m).data := by decide

set_option maxRecDepth 10000 in
theorem digitsVal_repr : ∀ m : ℕ, m < 256 → digitsVal (Nat.repr m).data = m := by
  decide

/-- Splitting at the first dot is unambiguous when neither left part
contains a dot. -/
theorem append_dot_inj : ∀ {xs ys u v : List Char}, '.' ∉ xs → '.' ∉ ys →
    xs ++ '.' :: u = ys ++ '.' :: v → xs = ys ∧ u = v := by
  intro xs
  induction xs with
  | nil =>
    intro ys u v _ hy h
    cases ys with
    | nil => simpa using h
    | cons b bs =>
      simp only [List.nil_append, List.cons_append, List.cons.injEq] at h
      exact absurd (List.mem_cons.2 (Or.inl h.1)) hy
  | cons a as ih =>
    intro ys u v hx hy h
    cases ys with
    | nil =>
      simp only [List.cons_append, List.nil_append, List.cons.injEq] at h
      exact absurd (List.mem_cons.2 (Or.inl h.1.symm)) hx
    | cons b bs =>
      simp only [List.cons_append, List.cons.injEq] at h
      have := ih (fun hc => hx (List.mem_cons_of_mem a hc))
        (fun hc => hy (List.mem_cons_of_mem b hc)) h.2
      exact ⟨by rw [h.1, this.1], this.2⟩

theorem repr_data_inj {x y : ℕ} (hx : x < 256) (hy : y < 256)
    (h : (Nat.repr x).data = (Nat.repr y).data) : x = y := by
  have := congrArg digitsVal h
  rwa [digitsVal_repr _ hx, digitsVal_repr _ hy] at this

/-- The dotted-quad format is injective below 2^31: the four base-256
digits can be recovered from the string. -/
theorem natIpFormat_inj {m m' : ℕ} (hm : m < 2 ^ 31) (hm' : m' < 2 ^ 31)
    (h : natIpFormat m = natIpFormat m') : m = m' := by
  have ha : m / 2 ^ 24 < 256 := by omega
  have ha' : m' / 2 ^ 24 < 256 := by omega
  have hb : m / 2 ^ 16 % 256 < 256 := Nat.mod_lt _ (by norm_num)
  have hb' : m' / 2 ^ 16 % 256 < 256 := Nat.mod_lt _ (by norm_num)
  have hc : m / 2 ^ 8 % 256 < 256 := Nat.mod_lt _ (by norm_num)
  have hc' : m' / 2 ^ 8 % 256 < 256 := Nat.mod_lt _ (by norm_num)
  have hd : m % 256 < 256 := Nat.mod_lt _ (by norm_num)
  have hd' : m' % 256 < 256 := Nat.mod_lt _ (by norm_num)
  have hdata := congrArg String.data h
  simp only [natIpFormat, String.data_append,
    show ("." : String).data = ['.'] from rfl, List.singleton_append,
    List.append_assoc] at hdata
  obtain ⟨e1, hrest⟩ := append_dot_inj (repr_no_dot _ ha) (repr_no_dot _ ha') hdata
  obtain ⟨e2, hrest2⟩ := append_dot_inj (repr_no_dot _ hb) (repr_no_dot _ hb') hrest
  obtain ⟨e3, e4⟩ := append_dot_inj (repr_no_dot _ hc) (repr_no_dot _ hc') hrest2
  have q1 := repr_data_inj ha ha' e1
  have q2 := repr_data_inj hb hb' e2
  have q3 := repr_data_inj hc hc' e3
  have q4 := repr_data_inj hd hd' e4
  omega

theorem int32wrap_add_one (n : ℤ) :
    int32wrap (int32wrap n + 1) = int32wrap (n + 1) := by
  unfold int32wrap
  omega

theorem int32wrap_of_lt {n : ℤ} (h0 : 0 ≤ n) (h1 : n < 2 ^ 31) :
    int32wrap n = n := by
  unfold int32wrap
  omega

/-- The state of the replay importer's IP assignment: the `ips` map
(importer source line 620; an association list, newest entry first — keys
stay unique because insertion happens only after a failed lookup) and the
`nextIP` int32 counter (line 619). -/
structure ReplayIPState where
  ips : List (String × String)
  nextIP : ℤ

/-- Importer source lines 658-664: look the row's session up in `ips`; when
absent, format `nextIP` as the synthetic IP, store it for the session and
increment the counter (int32 arithmetic).  Returns the new state and the IP
assigned to the row (`r.RemoteAddr = ip`). -/
def assignIP (st : ReplayIPState) (session : String) : ReplayIPState × String :=
  match st.ips.lookup session with
  | some ip => (st, ip)
  | none =>
    let ip := ipFormat st.nextIP
    (⟨(session, ip) :: st.ips, int32wrap (st.nextIP + 1)⟩, ip)

/-- Run the IP assignment over the session column of every row, in order,
collecting each row's synthetic IP. -/
def runAssign : ReplayIPState → List String → ReplayIPState × List String
  | st, [] => (st, [])
  | st, s :: rest =>
    let p := assignIP st s
    let q := runAssign p.1 rest
    (q.1, p.2 :: q.2)

/-- The synthetic IP of every row of one replay run (one entry per input
row, in order), starting from the empty map and counter 0. -/
def replayIPs (sessions : List String) : List String :=
  (runAssign ⟨[], 0⟩ sessions).2

/-- The distinct session identifiers of `l` in order of first appearance,
continuing the already-seen list `acc`. -/
def seenOrder (acc : List String) : List String → List String
  | [] => acc
  | s :: rest => seenOrder (if s ∈ acc then acc else acc ++ [s]) rest

/-- The distinct session identifiers in order of first appearance. -/
def firstSeen (l : List String) : List String := seenOrder [] l

/-- The correspondence between an assignment state and the list `acc` of
sessions already seen, in first-seen order: the counter is the (wrapped)
number of distinct sessions, and the map sends the i-th first-seen session
to the formatted (wrapped) counter value i. -/
def IPInv (st : ReplayIPState) (acc : List String) : Prop :=
  st.nextIP = int32wrap acc.length
  ∧ acc.Nodup
  ∧ ∀ s : String, st.ips.lookup s =
      if s ∈ acc then some (ipFormat (int32wrap (acc.indexOf s))) else none

theorem seenOrder_append : ∀ (l acc : List String),
    ∃ extra, seenOrder acc l = acc ++ extra
  | [], acc => ⟨[], by simp [seenOrder]⟩
  | s :: rest, acc => by
    by_cases hs : s ∈ acc
    · obtain ⟨extra, he⟩ := seenOrder_append rest acc
      exact ⟨extra, by simpa [seenOrder, hs] using he⟩
    · obtain ⟨extra, he⟩ := seenOrder_append rest (acc ++ [s])
      refine ⟨[s] ++ extra, ?_⟩
      simp only [seenOrder, if_neg hs]
      rw [he, List.append_assoc]

theorem assignIP_inv {st : ReplayIPState} {acc : List String} (s : String)
    (h : IPInv st acc) :
    IPInv (assignIP st s).1 (if s ∈ acc then acc else acc ++ [s])
    ∧ (assignIP st s).2 =
        ipFormat (int32wrap ((if s ∈ acc then acc else acc ++ [s]).indexOf s)) := by
  obtain ⟨hctr, hnd, hlook⟩ := h
  by_cases hs : s ∈ acc
  · have hl : st.ips.lookup s = some (ipFormat (int32wrap (acc.indexOf s))) := by
      rw [hlook s, if_pos hs]
    have ha : assignIP st s = (st, ipFormat (int32wrap (acc.indexOf s))) := by
      simp [assignIP, hl]
    rw [ha]
    simp only [if_pos hs]
    exact ⟨⟨hctr, hnd, hlook⟩, trivial⟩
  · have hl : st.ips.lookup s = none := by rw [hlook s, if_neg hs]
    have hidx : (acc ++ [s]).indexOf s = acc.length := by
      rw [List.indexOf_append_of_not_mem hs]
      simp
    have ha : assignIP st s =
        (⟨(s, ipFormat st.nextIP) :: st.ips, int32wrap (st.nextIP + 1)⟩,
          ipFormat st.nextIP) := by
      simp [assignIP, hl]
    rw [ha]
    simp only [if_neg hs]
    refine ⟨⟨?_, ?_, ?_⟩, ?_⟩
    · show int32wrap (st.nextIP + 1) = int32wrap ((acc ++ [s]).length : ℤ)
      rw [hctr, int32wrap_add_one]
      congr 1
      simp [List.length_append]
    · simp [List.nodup_append, hnd, hs]
    · intro t
      show List.lookup t ((s, ipFormat st.nextIP) :: st.ips) = _
      by_cases hts : t = s
      · subst hts
        simp only [List.lookup, beq_self_eq_true]
        rw [if_pos (by simp), hidx, hctr]
      · have hbeq : (t == s) = false := beq_eq_false_iff_ne.2 hts
        simp only [List.lookup, hbeq]
        rw [hlook t]
        by_cases htacc : t ∈ acc
        · rw [if_pos htacc, if_pos (by simp [htacc]),
            List.indexOf_append_of_mem htacc]
        · rw [if_neg htacc, if_neg (by simp [htacc, hts])]
    · show ipFormat st.nextIP = _
      rw [hctr, hidx]

theorem runAssign_spec : ∀ (l : List String) (st : ReplayIPState)
    (acc : List String), IPInv st acc →
    IPInv (runAssign st l).1 (seenOrder acc l)
    ∧ (runAssign st l).2 =
        l.map (fun s => ipFormat (int32wrap ((seenOrder acc l).indexOf s)))
  | [], st, acc, h => ⟨h, by simp [runAssign, seenOrder]⟩
  | s :: rest, st, acc, h => by
    obtain ⟨hinv, hip⟩ := assignIP_inv s h
    set acc' := if s ∈ acc then acc else acc ++ [s] with hacc'
    obtain ⟨hinv', hips⟩ := runAssign_spec rest (assignIP st s).1 acc' hinv
    have hseen : seenOrder acc (s :: rest) = seenOrder acc' rest := by
      simp only [seenOrder, hacc']
    have hmem : s ∈ acc' := by
      by_cases hs : s ∈ acc <;> simp [hacc', hs]
    have hpre : ∃ extra, seenOrder acc' rest = acc' ++ extra :=
      seenOrder_append rest acc'
    obtain ⟨extra, hext⟩ := hpre
    have hidx : (seenOrder acc' rest).indexOf s = acc'.indexOf s := by
      rw [hext, List.indexOf_append_of_mem hmem]
    constructor
    · rw [hseen]
      exact hinv'
    · show ((runAssign st (s :: rest)).2 : List String) = _
      simp only [runAssign, List.map_cons, hseen]
      refine congrArg₂ _ ?_ hips
      rw [hip, hidx]

theorem replayIPs_eq (sessions : List String) :
    replayIPs sessions =
      sessions.map
        (fun s => ipFormat (int32wrap ((firstSeen sessions).indexOf s)))
    ∧ (firstSeen sessions).Nodup := by
  have hbase : IPInv ⟨[], 0⟩ [] := by
    refine ⟨by unfold int32wrap; decide, List.nodup_nil, fun s => by simp [List.lookup]⟩
  obtain ⟨hinv, hips⟩ := runAssign_spec sessions ⟨[], 0⟩ [] hbase
  exact ⟨hips, hinv.2.1⟩

theorem seenOrder_length : ∀ (l acc : List String),
    (seenOrder acc l).length ≤ acc.length + l.length
  | [], acc => by simp [seenOrder]
  | s :: rest, acc => by
    by_cases hs : s ∈ acc
    · have h := seenOrder_length rest acc
      simp only [seenOrder, if_pos hs, List.length_cons]
      omega
    · have h := seenOrder_length rest (acc ++ [s])
      simp only [seenOrder, if_neg hs, List.length_cons]
      simp only [List.length_append, List.length_cons, List.length_nil] at h
      omega

theorem mem_seenOrder : ∀ (l acc : List String) (s : String),
    s ∈ seenOrder acc l ↔ s ∈ acc ∨ s ∈ l
  | [], acc, s => by simp [seenOrder]
  | t :: rest, acc, s => by
    by_cases ht : t ∈ acc
    · rw [show seenOrder acc (t :: rest) = seenOrder acc rest from by
        simp [seenOrder, ht]]
      rw [mem_seenOrder rest acc s]
      constructor
      · rintro (h | h)
        exacts [Or.inl h, Or.inr (List.mem_cons_of_mem t h)]
      · rintro (h | h)
        · exact Or.inl h
        · rcases List.mem_cons.1 h with rfl | h
          exacts [Or.inl ht, Or.inr h]
    · rw [show seenOrder acc (t :: rest) = seenOrder (acc ++ [t]) rest from by
        simp [seenOrder, ht]]
      rw [mem_seenOrder rest (acc ++ [t]) s]
      simp [List.mem_append, List.mem_cons, or_assoc]

theorem seenOrder_of_nodup : ∀ (l acc : List String), (acc ++ l).Nodup →
    seenOrder acc l = acc ++ l
  | [], acc, _ => by simp [seenOrder]
  | s :: rest, acc, h => by
    have hs : s ∉ acc := by
      rw [List.nodup_append] at h
      exact fun hc => h.2.2 hc (List.mem_cons_self s rest)
    have h' : ((acc ++ [s]) ++ rest).Nodup := by
      have : (acc ++ [s]) ++ rest = acc ++ s :: rest := by
        rw [List.append_assoc]
        simp
      rw [this]
      exact h
    have hrec := seenOrder_of_nodup rest (acc ++ [s]) h'
    rw [show seenOrder acc (s :: rest) = seenOrder (acc ++ [s]) rest from by
      simp [seenOrder, hs]]
    rw [hrec, List.append_assoc]
    simp

/-- Characterisation of a session's first-seen index: on a list without
duplicates, the element at position i has index i. -/
theorem nodup_indexOf_of_getQ {l : List String} (hnd : l.Nodup) {i : ℕ}
    {s : String} (h : l.get? i = some s) : l.indexOf s = i := by
  obtain ⟨hi, hg⟩ := List.get?_eq_some.1 h
  have hidx := List.indexOf_getElem hnd i hi
  rw [← hg, List.get_eq_getElem]
  exact hidx

/-- The statement of the amended claim C7: for a replay run with fewer than
2^31 rows, the synthetic-IP list has one entry per row; the i-th row's IP is
the dotted-quad formatting of the first-seen index of its session (so IPs
are handed out monotonically in first-seen order, starting from
`0.0.0.0` = `ipFormat 0`); and two rows receive the same IP exactly when
they carry the same session identifier (stability and injectivity). -/
def C7Statement (sessions : List String) : Prop :=
  (replayIPs sessions).length = sessions.length
  ∧ (∀ i s, sessions.get? i = some s →
      (replayIPs sessions).get? i =
        some (ipFormat (((firstSeen sessions).indexOf s : ℕ) : ℤ)))
  ∧ (∀ i j s t, sessions.get? i = some s → sessions.get? j = some t →
      ((replayIPs sessions).get? i = (replayIPs sessions).get? j ↔ s = t))
  ∧ ipFormat 0 = "0.0.0.0"

/-- C7 (amended): during one replay run of fewer than 2^31 rows, the map
from session identifier to synthetic IP is stable and injective, and IPs
are assigned monotonically in first-seen order starting from 0.0.0.0. -/
theorem C7_stable_injective_ips (sessions : List String)
    (hlen : sessions.length < 2 ^ 31) : C7Statement sessions := by
  obtain ⟨heq, hnd⟩ := replayIPs_eq sessions
  have hfslen : (firstSeen sessions).length ≤ sessions.length := by
    have := seenOrder_length sessions []
    simpa [firstSeen] using this
  have hmem : ∀ s ∈ sessions, s ∈ firstSeen sessions := by
    intro s hs
    exact (mem_seenOrder sessions [] s).2 (Or.inr hs)
  have hidxlt : ∀ s ∈ sessions, (firstSeen sessions).indexOf s < 2 ^ 31 := by
    intro s hs
    have h1 : (firstSeen sessions).indexOf s < (firstSeen sessions).length :=
      List.indexOf_lt_length.2 (hmem s hs)
    omega
  have hwrap : ∀ s ∈ sessions,
      int32wrap (((firstSeen sessions).indexOf s : ℕ) : ℤ) =
        (((firstSeen sessions).indexOf s : ℕ) : ℤ) := by
    intro s hs
    exact int32wrap_of_lt (by positivity) (by exact_mod_cast hidxlt s hs)
  have hget : ∀ i s, sessions.get? i = some s →
      (replayIPs sessions).get? i =
        some (ipFormat (((firstSeen sessions).indexOf s : ℕ) : ℤ)) := by
    intro i s hgs
    rw [heq, List.get?_map, hgs]
    simp only [Option.map_some']
    rw [hwrap s (List.get?_mem hgs)]
  refine ⟨by rw [heq, List.length_map], hget, ?_, rfl⟩
  intro i j s t hgs hgt
  constructor
  · intro hij
    rw [hget i s hgs, hget j t hgt] at hij
    have hf := Option.some.inj hij
    have hs' := hmem s (List.get?_mem hgs)
    have ht' := hmem t (List.get?_mem hgt)
    have hsn : (firstSeen sessions).indexOf s < (firstSeen sessions).length :=
      List.indexOf_lt_length.2 hs'
    have htn : (firstSeen sessions).indexOf t < (firstSeen sessions).length :=
      List.indexOf_lt_length.2 ht'
    have hinj : (firstSeen sessions).indexOf s = (firstSeen sessions).indexOf t := by
      have hcast : natIpFormat ((firstSeen sessions).indexOf s) =
          natIpFormat ((firstSeen sessions).indexOf t) := by
        rw [← ipFormat_natCast, ← ipFormat_natCast]
        exact hf
      exact natIpFormat_inj (hidxlt s (List.get?_mem hgs))
        (hidxlt t (List.get?_mem hgt)) hcast
    have hs2 := List.indexOf_get (l := firstSeen sessions) (a := s) hsn
    have ht2 := List.indexOf_get (l := firstSeen sessions) (a := t) htn
    rw [← hs2, ← ht2]
    congr 1
    exact Fin.ext hinj
  · intro hst
    subst hst
    rw [hget i s hgs, hget j s hgt]

/-- Witness for the amended C7 at a concrete three-row run. -/
theorem C7_stable_injective_ips_witness : C7Statement ["a", "b", "a"] :=
  C7_stable_injective_ips ["a", "b", "a"] (by norm_num)

/-- 2^32 + 1 pairwise distinct session identifiers ("", "a", "aa", ...). -/
def bigSessions : List String :=
  (List.range (2 ^ 32 + 1)).map (fun n => String.mk (List.replicate n 'a'))

/-- Counterexample to C7 as stated: the `nextIP` counter is a Go `int32`,
so over a run with 2^32 + 1 distinct session identifiers it wraps around
and the mapping stops being injective — the first and the (2^32+1)-th
(distinct) sessions both receive the synthetic IP `0.0.0.0`. -/
theorem C7_counterexample :
    bigSessions.get? 0 ≠ bigSessions.get? (2 ^ 32)
    ∧ (replayIPs bigSessions).get? 0 = some "0.0.0.0"
    ∧ (replayIPs bigSessions).get? (2 ^ 32) = some "0.0.0.0" := by
  have hinj : Function.Injective (fun n => String.mk (List.replicate n 'a')) := by
    intro a b hab
    have hd := congrArg String.data hab
    simpa [List.replicate_left_inj] using hd
  have hnd : bigSessions.Nodup :=
    List.Nodup.map hinj (List.nodup_range _)
  have h0 : bigSessions.get? 0 = some (String.mk (List.replicate 0 'a')) := by
    simp only [bigSessions, List.get?_map,
      List.get?_range (show 0 < 2 ^ 32 + 1 by norm_num), Option.map_some']
  have hN : bigSessions.get? (2 ^ 32) =
      some (String.mk (List.replicate (2 ^ 32) 'a')) := by
    simp only [bigSessions, List.get?_map,
      List.get?_range (show 2 ^ 32 < 2 ^ 32 + 1 by norm_num), Option.map_some']
  have hne : bigSessions.get? 0 ≠ bigSessions.get? (2 ^ 32) := by
    rw [h0, hN]
    intro hc
    have h2 : String.mk (List.replicate 0 'a') =
        String.mk (List.replicate (2 ^ 32) 'a') := Option.some.inj hc
    have h5 : List.replicate 0 'a' = List.replicate (2 ^ 32) 'a' :=
      congrArg String.data h2
    have h6 : (0 : ℕ) = 2 ^ 32 := List.replicate_left_inj.1 h5
    exact absurd h6 (by norm_num)
  obtain ⟨heq, -⟩ := replayIPs_eq bigSessions
  have hfs : firstSeen bigSessions = bigSessions := by
    have h1 := seenOrder_of_nodup bigSessions []
      (by rw [List.nil_append]; exact hnd)
    rw [List.nil_append] at h1
    exact h1
  have hip : ∀ i s, bigSessions.get? i = some s →
      (replayIPs bigSessions).get? i =
        some (ipFormat (int32wrap ((bigSessions.indexOf s : ℕ) : ℤ))) := by
    intro i s hgs
    rw [heq, hfs, List.get?_map, hgs]
    rfl
  have hidx0 : bigSessions.indexOf (String.mk (List.replicate 0 'a')) = 0 :=
    nodup_indexOf_of_getQ hnd h0
  have hidxN : bigSessions.indexOf (String.mk (List.replicate (2 ^ 32) 'a')) =
      2 ^ 32 :=
    nodup_indexOf_of_getQ hnd hN
  have hw0 : int32wrap ((0 : ℕ) : ℤ) = 0 := by unfold int32wrap; decide
  have hwN : int32wrap (((2 ^ 32 : ℕ) : ℕ) : ℤ) = 0 := by
    have hc : (((2 ^ 32 : ℕ) : ℕ) : ℤ) = 4294967296 := by norm_num
    rw [hc]
    unfold int32wrap
    decide
  refine ⟨hne, ?_, ?_⟩
  · rw [hip 0 _ h0, hidx0, hw0]
    rfl
  · rw [hip (2 ^ 32) _ hN, hidxN, hwN]
    rfl
